import Mathlib

/-!
Verification of `src/python/src/transfer.py` (PostgreToNoSQL).

The development shallowly embeds the program: JSON values and documents are an
inductive type, the MongoDB aggregation stages used by the program's pipelines
are an executable evaluator, the PGDB/MDB methods are state-passing functions,
and the driver `main` is modelled as an explicit control/state function.
External failure points (database errors raised by the drivers) are injected
through boolean oracles; clock reads (`time.time_ns()`, `datetime.now()`) are
injected through an explicit clock stream.
-/

set_option maxRecDepth 8000

/-- A JSON/BSON value as produced by PostgreSQL `json_agg` and stored in
MongoDB documents.  Documents are association lists of field name / value. -/
inductive Value where
  | vNull : Value
  | vBool : Bool → Value
  | vInt : Int → Value
  | vStr : String → Value
  | vArr : List Value → Value
  | vDoc : List (String × Value) → Value

instance : Inhabited Value := ⟨Value.vNull⟩

mutual

/-- Decidable equality on values (written by hand: `Value` nests `List`). -/
def decEqValue : (a b : Value) → Decidable (a = b)
  | .vNull, .vNull => isTrue rfl
  | .vNull, .vBool _ => isFalse nofun
  | .vNull, .vInt _ => isFalse nofun
  | .vNull, .vStr _ => isFalse nofun
  | .vNull, .vArr _ => isFalse nofun
  | .vNull, .vDoc _ => isFalse nofun
  | .vBool _, .vNull => isFalse nofun
  | .vBool x, .vBool y =>
      if h : x = y then isTrue (by rw [h]) else isFalse (fun he => h (by cases he; rfl))
  | .vBool _, .vInt _ => isFalse nofun
  | .vBool _, .vStr _ => isFalse nofun
  | .vBool _, .vArr _ => isFalse nofun
  | .vBool _, .vDoc _ => isFalse nofun
  | .vInt _, .vNull => isFalse nofun
  | .vInt _, .vBool _ => isFalse nofun
  | .vInt x, .vInt y =>
      if h : x = y then isTrue (by rw [h]) else isFalse (fun he => h (by cases he; rfl))
  | .vInt _, .vStr _ => isFalse nofun
  | .vInt _, .vArr _ => isFalse nofun
  | .vInt _, .vDoc _ => isFalse nofun
  | .vStr _, .vNull => isFalse nofun
  | .vStr _, .vBool _ => isFalse nofun
  | .vStr _, .vInt _ => isFalse nofun
  | .vStr x, .vStr y =>
      if h : x = y then isTrue (by rw [h]) else isFalse (fun he => h (by cases he; rfl))
  | .vStr _, .vArr _ => isFalse nofun
  | .vStr _, .vDoc _ => isFalse nofun
  | .vArr _, .vNull => isFalse nofun
  | .vArr _, .vBool _ => isFalse nofun
  | .vArr _, .vInt _ => isFalse nofun
  | .vArr _, .vStr _ => isFalse nofun
  | .vArr xs, .vArr ys =>
      match decEqValueList xs ys with
      | isTrue h => isTrue (by rw [h])
      | isFalse h => isFalse (fun he => h (by cases he; rfl))
  | .vArr _, .vDoc _ => isFalse nofun
  | .vDoc _, .vNull => isFalse nofun
  | .vDoc _, .vBool _ => isFalse nofun
  | .vDoc _, .vInt _ => isFalse nofun
  | .vDoc _, .vStr _ => isFalse nofun
  | .vDoc _, .vArr _ => isFalse nofun
  | .vDoc xs, .vDoc ys =>
      match decEqFieldList xs ys with
      | isTrue h => isTrue (by rw [h])
      | isFalse h => isFalse (fun he => h (by cases he; rfl))

/-- Decidable equality on value lists. -/
def decEqValueList : (xs ys : List Value) → Decidable (xs = ys)
  | [], [] => isTrue rfl
  | [], _ :: _ => isFalse nofun
  | _ :: _, [] => isFalse nofun
  | x :: xs, y :: ys =>
      match decEqValue x y, decEqValueList xs ys with
      | isTrue h1, isTrue h2 => isTrue (by rw [h1, h2])
      | isFalse h1, _ => isFalse (fun he => h1 (by cases he; rfl))
      | _, isFalse h2 => isFalse (fun he => h2 (by cases he; rfl))

/-- Decidable equality on field lists. -/
def decEqFieldList : (xs ys : List (String × Value)) → Decidable (xs = ys)
  | [], [] => isTrue rfl
  | [], _ :: _ => isFalse nofun
  | _ :: _, [] => isFalse nofun
  | (k1, v1) :: xs, (k2, v2) :: ys =>
      if hk : k1 = k2 then
        match decEqValue v1 v2, decEqFieldList xs ys with
        | isTrue h1, isTrue h2 => isTrue (by rw [hk, h1, h2])
        | isFalse h1, _ => isFalse (fun he => h1 (by cases he; rfl))
        | _, isFalse h2 => isFalse (fun he => h2 (by cases he; rfl))
      else isFalse (fun he => hk (by cases he; rfl))

end

instance : DecidableEq Value := decEqValue

/-- A document: an ordered association list of fields, as a Python/JSON dict. -/
abbrev Doc := List (String × Value)

/-- First binding of a key in a document (Python dict lookup). -/
def dlookup (d : Doc) (k : String) : Option Value :=
  List.lookup k d

/-- Field access defaulting to null for a missing field, as MongoDB query
operators treat a missing field. -/
def dget (d : Doc) (k : String) : Value :=
  (dlookup d k).getD Value.vNull

/-- Set a field: replace the first binding of the key, or append a new one. -/
def dset : Doc → String → Value → Doc
  | [], k, v => [(k, v)]
  | (k', v') :: rest, k, v =>
      if k' = k then (k, v) :: rest else (k', v') :: dset rest k v

/-- Remove every binding of a key from a document. -/
def dremove (d : Doc) (k : String) : Doc :=
  d.filter (fun p => p.1 ≠ k)

/-- Split a dotted field path such as `film.length` into its components. -/
def splitPath (p : String) : List String :=
  p.splitOn "."

mutual

/-- Resolve a dotted path against a value, MongoDB style: descending into
subdocuments by key and traversing arrays element-wise, collecting every value
reached.  A missing key contributes nothing. -/
def resolveAll : Value → List String → List Value
  | v, [] => [v]
  | Value.vDoc d, k :: ks => resolveField d k ks
  | Value.vArr xs, ks => resolveList xs ks
  | _, _ => []

/-- Resolve a path component against the fields of a document (first binding
of the key wins, as in `List.lookup`). -/
def resolveField : List (String × Value) → String → List String → List Value
  | [], _, _ => []
  | (k', v) :: rest, k, ks =>
      if k' = k then resolveAll v ks else resolveField rest k ks

/-- Resolve a path against every element of an array, concatenating results. -/
def resolveList : List Value → List String → List Value
  | [], _ => []
  | x :: xs, ks => resolveAll x ks ++ resolveList xs ks

end

/-- MongoDB treats a record whose local/foreign field is missing as holding
null for the purpose of `$lookup` equality. -/
def normVals (vs : List Value) : List Value :=
  if vs.isEmpty then [Value.vNull] else vs

/-! ## Aggregation expressions

The expression forms appearing in the program's pipelines: literals, `$`-field
paths, `$concat`, `$cond`, `$gte` and `$round`.  Dotted paths are written as
their `.`-separated components; the variadic `$concat` of the source is folded
into nested binary concatenations (MongoDB's `$concat` is associative and
null-absorbing, so the two renderings agree). -/

/-- An aggregation expression. -/
inductive Expr where
  | lit : Value → Expr
  | fpath : List String → Expr
  | concatE : Expr → Expr → Expr
  | condE : Expr → Expr → Expr → Expr
  | gteE : Expr → Expr → Expr
  | roundE : Expr → Nat → Expr
  deriving DecidableEq

/-- BSON type rank, used by `$sort` and `$gte` comparisons across types. -/
def valRank : Value → Nat
  | .vNull => 0
  | .vInt _ => 1
  | .vStr _ => 2
  | .vDoc _ => 3
  | .vArr _ => 4
  | .vBool _ => 5

/-- Comparison on values: within a type the natural order, across types the
BSON type rank (equal-rank composite values compare as ties). -/
def valLe (a b : Value) : Bool :=
  match a, b with
  | .vInt x, .vInt y => x ≤ y
  | .vStr x, .vStr y => x ≤ y
  | .vBool x, .vBool y => !x || y
  | _, _ => valRank a ≤ valRank b

/-- MongoDB `$cond` truthiness of the `if` branch. -/
def truthy : Value → Bool
  | .vBool b => b
  | .vNull => false
  | .vInt n => n ≠ 0
  | _ => true

/-- Evaluate an expression against one document.  A path that resolves to
nothing yields null (MongoDB renders a missing expression result as absent;
downstream `$concat` treats both the same way). -/
def evalExpr (d : Doc) : Expr → Value
  | .lit v => v
  | .fpath p => (resolveAll (Value.vDoc d) p).headD Value.vNull
  | .concatE a b =>
      match evalExpr d a, evalExpr d b with
      | .vStr x, .vStr y => .vStr (x ++ y)
      | _, _ => .vNull
  | .condE i t e => if truthy (evalExpr d i) then evalExpr d t else evalExpr d e
  | .gteE a b => .vBool (valLe (evalExpr d b) (evalExpr d a))
  | .roundE a _ =>
      match evalExpr d a with
      | .vInt n => .vInt n
      | _ => .vNull

/-- A `$group` accumulator: `$sum` of an expression (integer arithmetic, the
claims under proof do not depend on decimal rounding) or `$first`. -/
inductive Accum where
  | sumA : Expr → Accum
  | firstA : Expr → Accum
  deriving DecidableEq

/-- Projection spec entry: include (`1`), exclude (`0`) or a computed value. -/
inductive Proj where
  | includeP : Proj
  | excludeP : Proj
  | exprP : Expr → Proj
  deriving DecidableEq

/-- One aggregation stage, covering exactly the stage forms used by the
pipelines in `transfer.py`: `$group`, `$sort` (single key), `$limit`,
`$lookup`, `$unwind` (single-key path, with or without
`preserveNullAndEmptyArrays`), `$addFields`, `$project`, `$match` with a
`$lt` bound or an equality, and `$count`. -/
inductive Stage where
  | groupS : Expr → List (String × Accum) → Stage
  | sortS : String → Bool → Stage
  | limitS : Nat → Stage
  | lookupS : String → List String → List String → String → Stage
  | unwindS : String → Bool → Stage
  | addFieldsS : List (String × Expr) → Stage
  | projectS : List (String × Proj) → Stage
  | matchLtS : List String → Int → Stage
  | matchEqS : List String → Value → Stage
  | countS : String → Stage
  deriving DecidableEq

/-- The destination database: named collections of documents. -/
abbrev DB := List (String × List Doc)

/-- Contents of a collection; a collection that was never written is empty. -/
def getColl (db : DB) (c : String) : List Doc :=
  (List.lookup c db).getD []

/-- Evaluate one accumulator over the documents of a group. -/
def evalAccum (docs : List Doc) : Accum → Value
  | .sumA e =>
      Value.vInt (docs.foldl
        (fun s d => match evalExpr d e with | .vInt n => s + n | _ => s) 0)
  | .firstA e =>
      match docs with
      | [] => Value.vNull
      | d :: _ => evalExpr d e

/-- Distinct values of a list, keeping first occurrences in order. -/
def firstSeen : List Value → List Value
  | [] => []
  | v :: vs => v :: (firstSeen vs).filter (fun w => w ≠ v)

/-- `$group`: partition by the key expression, one output document per
distinct key holding `_id` and the accumulator results. -/
def evalGroup (idE : Expr) (accs : List (String × Accum)) (docs : List Doc) :
    List Doc :=
  (firstSeen (docs.map (fun d => evalExpr d idE))).map (fun k =>
    let grp := docs.filter (fun d => evalExpr d idE = k)
    ("_id", k) :: accs.map (fun pa => (pa.1, evalAccum grp pa.2)))

/-- Stable insertion into a sorted list: the new element goes before the
first element it does not strictly follow. -/
def insertBy (le : Doc → Doc → Bool) (d : Doc) : List Doc → List Doc
  | [] => [d]
  | y :: ys => if le d y then d :: y :: ys else y :: insertBy le d ys

/-- Stable insertion sort. -/
def sortByLe (le : Doc → Doc → Bool) : List Doc → List Doc
  | [] => []
  | x :: xs => insertBy le x (sortByLe le xs)

/-- `$sort` on a single key, ascending or descending, ties by input order. -/
def evalSort (key : String) (desc : Bool) (docs : List Doc) : List Doc :=
  sortByLe
    (fun a b =>
      if desc then valLe (dget b key) (dget a key)
      else valLe (dget a key) (dget b key))
    docs

/-- `$lookup`: attach to each input document, as an array-valued field, every
document of the foreign collection whose foreign field equals the local field
(missing fields on either side behave as null; array-valued fields match
element-wise). -/
def evalLookup (db : DB) (frm : String) (loc ff : List String) (asF : String)
    (docs : List Doc) : List Doc :=
  docs.map (fun d =>
    let lvs := normVals (resolveAll (Value.vDoc d) loc)
    dset d asF (Value.vArr
      (((getColl db frm).filter
          (fun f => (normVals (resolveAll (Value.vDoc f) ff)).any
            (fun fv => decide (fv ∈ lvs)))).map Value.vDoc)))

/-- `$unwind` of one document: one output per array element; an empty array,
null or missing field drops the document unless `preserveNullAndEmptyArrays`
is set, in which case it passes through once (an empty array leaves the field
absent); a non-array value passes through unchanged. -/
def unwindDoc (path : String) (preserve : Bool) (d : Doc) : List Doc :=
  match dlookup d path with
  | some (.vArr (x :: xs)) => (x :: xs).map (fun v => dset d path v)
  | some (.vArr []) => if preserve then [dremove d path] else []
  | some .vNull => if preserve then [d] else []
  | some _ => [d]
  | none => if preserve then [d] else []

/-- `$unwind` over a stream. -/
def evalUnwind (path : String) (preserve : Bool) (docs : List Doc) :
    List Doc :=
  docs.flatMap (unwindDoc path preserve)

/-- `$addFields`: every expression sees the input document. -/
def evalAddFields (fs : List (String × Expr)) (d : Doc) : Doc :=
  fs.foldl (fun acc ke => dset acc ke.1 (evalExpr d ke.2)) d

/-- `$project`: build the output from the spec entries in order (the
program's projections always list `_id` explicitly). -/
def evalProject (spec : List (String × Proj)) (d : Doc) : Doc :=
  spec.foldl
    (fun acc kp =>
      match kp.2 with
      | .includeP =>
          match dlookup d kp.1 with
          | some v => acc ++ [(kp.1, v)]
          | none => acc
      | .excludeP => acc
      | .exprP e => acc ++ [(kp.1, evalExpr d e)])
    []

/-- `$match` with `{path: {$lt: bound}}`: keep a document when some value
reached by the path is an integer below the bound. -/
def evalMatchLt (path : List String) (bound : Int) (docs : List Doc) :
    List Doc :=
  docs.filter (fun d =>
    (resolveAll (Value.vDoc d) path).any
      (fun v => match v with | .vInt n => decide (n < bound) | _ => false))

/-- `$match` with `{field: v}`: equality match, missing field as null. -/
def evalMatchEq (field : List String) (v : Value) (docs : List Doc) :
    List Doc :=
  docs.filter (fun d =>
    (normVals (resolveAll (Value.vDoc d) field)).any (fun w => decide (w = v)))

/-- `$count`: a single document with the stream length, or nothing for an
empty stream. -/
def evalCount (name : String) (docs : List Doc) : List Doc :=
  if docs.isEmpty then [] else [[(name, Value.vInt docs.length)]]

/-- Evaluate one stage against the current stream. -/
def evalStage (db : DB) (docs : List Doc) : Stage → List Doc
  | .groupS idE accs => evalGroup idE accs docs
  | .sortS key desc => evalSort key desc docs
  | .limitS n => docs.take n
  | .lookupS frm loc ff asF => evalLookup db frm loc ff asF docs
  | .unwindS path preserve => evalUnwind path preserve docs
  | .addFieldsS fs => docs.map (evalAddFields fs)
  | .projectS spec => docs.map (evalProject spec)
  | .matchLtS path bound => evalMatchLt path bound docs
  | .matchEqS field v => evalMatchEq field v docs
  | .countS name => evalCount name docs

/-- Evaluate a pipeline against a named collection, stages left to right. -/
def evalPipeline (db : DB) (coll : String) (stages : List Stage) : List Doc :=
  stages.foldl (evalStage db) (getColl db coll)

/-! ## The program's pipelines

Transcribed from `transfer.py`.  Only the pipelines the claims cite are
needed: `find_top_actors` (lines 95-123), the customer view pipeline
(lines 522-589) and the `short_films` selection of the delete phase
(lines 481-491). -/

/-- Query to count 10 most used actors, full name, ascending order
(source lines 95-123). -/
def find_top_actors : List Stage :=
  [ Stage.groupS (Expr.fpath ["actor_id"])
      [ ("count", Accum.sumA (Expr.lit (Value.vInt 1)))
      , ("actor_id", Accum.firstA (Expr.fpath ["actor_id"])) ]
  , Stage.sortS "count" true
  , Stage.limitS 10
  , Stage.lookupS "actor" ["actor_id"] ["actor_id"] "actor"
  , Stage.unwindS "actor" true
  , Stage.addFieldsS
      [ ("fullName"
        , Expr.concatE
            (Expr.concatE (Expr.fpath ["actor", "first_name"])
              (Expr.lit (Value.vStr " ")))
            (Expr.fpath ["actor", "last_name"])) ]
  , Stage.projectS
      [ ("_id", Proj.excludeP)
      , ("name", Proj.exprP (Expr.fpath ["fullName"]))
      , ("count", Proj.exprP (Expr.fpath ["count"])) ] ]

/-- The pipeline reproducing the behaviour of view `customer_list`
(source lines 522-589). -/
def get_pipeline_customer_view : List Stage :=
  [ Stage.lookupS "address" ["address_id"] ["address_id"] "address"
  , Stage.unwindS "address" true
  , Stage.lookupS "city" ["address", "city_id"] ["city_id"] "city"
  , Stage.unwindS "city" true
  , Stage.lookupS "country" ["city", "country_id"] ["country_id"] "country"
  , Stage.unwindS "country" true
  , Stage.addFieldsS
      [ ("fullName"
        , Expr.concatE
            (Expr.concatE (Expr.fpath ["first_name"])
              (Expr.lit (Value.vStr " ")))
            (Expr.fpath ["last_name"]))
      , ("notes"
        , Expr.condE (Expr.fpath ["activebool"])
            (Expr.lit (Value.vStr "active")) (Expr.lit (Value.vStr ""))) ]
  , Stage.projectS
      [ ("_id", Proj.includeP)
      , ("customer_id", Proj.includeP)
      , ("name", Proj.exprP (Expr.fpath ["fullName"]))
      , ("address", Proj.exprP (Expr.fpath ["address", "address"]))
      , ("zip code", Proj.exprP (Expr.fpath ["address", "postal_code"]))
      , ("phone", Proj.exprP (Expr.fpath ["address", "phone"]))
      , ("city", Proj.exprP (Expr.fpath ["city", "city"]))
      , ("country", Proj.exprP (Expr.fpath ["country", "country"]))
      , ("notes", Proj.exprP (Expr.fpath ["notes"]))
      , ("sid", Proj.exprP (Expr.fpath ["store_id"])) ] ]

/-- The delete phase's selection of inventory items of short films
(source lines 481-491): join `film` by `film_id`, keep items whose joined
film has `length < 60`. -/
def short_films : List Stage :=
  [ Stage.lookupS "film" ["film_id"] ["film_id"] "film"
  , Stage.matchLtS ["film", "length"] 60 ]

/-! ## The Postgres side: `PGDB.get_json_tables` (source lines 59-78)

The source state is the list of tables (in `listTables` order), each with the
JSON elements `json_agg` would produce for it (one JSON object per row).
Driver-level failures while querying a table are injected by the oracle
`fail`.  The `try` block wraps the whole loop, and the `finally` block
returns the dict built so far, so any exception ends the loop and yields the
partial dict. -/

namespace PGDB

/-- PostgreSQL `json_agg(t.*)`: the JSON array of the table's rows, or SQL
NULL for an empty table. -/
def json_agg (rows : List Value) : Option (List Value) :=
  if rows.isEmpty then none else some rows

/-- `PGDB.get_json_tables`.  Per table: run `json_agg`; a driver error
(oracle) or the `TypeError` from flattening a NULL aggregate (empty table)
raises, ending the loop; otherwise the non-null elements are recorded under
the table's name (the comprehension of line 69).  The `finally` return makes
the partial result the function's value. -/
def get_json_tables :
    List (String × List Value) → (String → Bool) → List (String × List Value)
  | [], _ => []
  | (t, rows) :: rest, fail =>
      if fail t then []
      else
        match json_agg rows with
        | none => []
        | some js =>
            (t, js.filter (fun v => v ≠ Value.vNull)) :: get_json_tables rest fail

/-- A table extracts successfully when its query does not error and it is
not empty (an empty table's NULL aggregate makes the flattening raise). -/
def extractOk (fail : String → Bool) (e : String × List Value) : Bool :=
  !fail e.1 && !e.2.isEmpty

/-- The mapping of the tables transformed before the first failure. -/
def extractedTables (src : List (String × List Value)) (fail : String → Bool) :
    List (String × List Value) :=
  (src.takeWhile (extractOk fail)).map
    (fun e => (e.1, e.2.filter (fun v => v ≠ Value.vNull)))

end PGDB

/-! ## The Mongo side: class `MDB` (source lines 337-411) -/

namespace MDB

/-- `insert_many` accepts only mapping documents; a non-dict element makes
the whole batch raise. -/
def asDocs : List Value → Option (List Doc)
  | [] => some []
  | Value.vDoc d :: rest => (asDocs rest).map (fun ds => d :: ds)
  | _ :: _ => none

/-- Bulk insert into a named collection, creating it on first write. -/
def dbInsert : DB → String → List Doc → DB
  | [], t, docs => [(t, docs)]
  | (n, ds) :: rest, t, docs =>
      if n = t then (n, ds ++ docs) :: rest
      else (n, ds) :: dbInsert rest t docs

/-- `MDB.json_dict_insert` (lines 365-381): one `insert_many` per table of
the dict.  The `try` wraps the whole loop; a driver error (oracle), an empty
batch (`insert_many([])` raises `InvalidOperation`) or a non-dict element
raises, and the bare `except` ends the function with the state reached so
far. -/
def json_dict_insert :
    DB → List (String × List Value) → (String → Bool) → DB
  | st, [], _ => st
  | st, (t, vals) :: rest, fail =>
      if fail t then st
      else
        match asDocs vals with
        | none => st
        | some [] => st
        | some (d :: ds) => json_dict_insert (dbInsert st t (d :: ds)) rest fail

/-- A table loads successfully when its insert does not error and its batch
is a non-empty list of documents. -/
def loadOk (fail : String → Bool) (e : String × List Value) : Bool :=
  !fail e.1 &&
    match asDocs e.2 with
    | some (_ :: _) => true
    | _ => false

/-- The Mongo database state: collections plus the registered views
(name, base collection, pipeline). -/
structure MongoSt where
  colls : DB
  views : List (String × String × List Stage)
  deriving DecidableEq

/-- Modelled from the spec: the `ViewAlreadyExists` error of the error
taxonomy (spec section 7).  The implementation defines no such error class;
the type names what the spec says the caller should receive. -/
inductive ViewError where
  | viewAlreadyExists : ViewError
  deriving DecidableEq

/-- Outcome of `MDB.create_view`: the new state, whether the bare `except`
branch ran (logging "Unable to Create customer_list view."), and what
propagates to the caller — nothing ever does, the except swallows every
exception. -/
structure CreateViewResult where
  state : MongoSt
  loggedFailure : Bool
  raised : Option ViewError
  deriving DecidableEq

/-- `MDB.create_view` (lines 383-396): `create_collection(name, viewOn=...,
pipeline=...)` refuses a name already bound to a collection or view
(`CollectionInvalid`), which the bare `except` catches and logs; on success
the view is registered. -/
def create_view (st : MongoSt) (name viewon : String) (pipeline : List Stage) :
    CreateViewResult :=
  if (List.lookup name st.views).isSome ∨ (List.lookup name st.colls).isSome then
    { state := st, loggedFailure := true, raised := none }
  else
    { state := { st with views := st.views ++ [(name, viewon, pipeline)] }
    , loggedFailure := false
    , raised := none }

/-- Modelled from the spec: the `PipelineError` of the error taxonomy (spec
sections 4.3 and 7), carrying the offending stage index and collection.  The
implementation defines no such error class. -/
structure PipelineError where
  stageIndex : Nat
  collection : String
  deriving DecidableEq

/-- `MDB.aggregate` (lines 398-411): guarded on a non-empty collection name,
the pipeline is evaluated and its result stream logged; the bare `except`
catches any exception, so nothing ever propagates to the caller.  The value
of this function is what the caller observes: the logged result stream, or a
surfaced error (never). -/
def aggregate (db : DB) (coll : String) (pipeline : List Stage) :
    Except PipelineError (List Doc) :=
  Except.ok (if coll = "" then [] else evalPipeline db coll pipeline)

/-- Apply a function to the contents of a named collection (a collection
never written stays absent: MongoDB updates and deletes do not create). -/
def modifyColl (db : DB) (c : String) (f : List Doc → List Doc) : DB :=
  db.map (fun p => if p.1 = c then (p.1, f p.2) else p)

/-- `insert_one`. -/
def insertOne (db : DB) (coll : String) (d : Doc) : DB :=
  dbInsert db coll [d]

/-- `$set` of several fields on one document. -/
def dsetMany (d : Doc) (fs : List (String × Value)) : Doc :=
  fs.foldl (fun a kv => dset a kv.1 kv.2) d

/-- Update the first document whose field `k` holds `v`. -/
def updateFirst (k : String) (v : Value) (fs : List (String × Value)) :
    List Doc → List Doc
  | [] => []
  | d :: ds =>
      if dget d k = v then dsetMany d fs :: ds
      else d :: updateFirst k v fs ds

/-- `update_one({k: v}, {$set: fs})`. -/
def updateOne (db : DB) (coll k : String) (v : Value)
    (fs : List (String × Value)) : DB :=
  modifyColl db coll (updateFirst k v fs)

/-- `update_many({}, {$set: fs})`: the empty filter matches every document. -/
def updateMany (db : DB) (coll : String) (fs : List (String × Value)) : DB :=
  modifyColl db coll (List.map (fun d => dsetMany d fs))

end MDB

/-! ## The Deleting phase (source lines 480-506)

The phase aggregates the `short_films` selection over `inventory`, then, per
selected item, deletes dependent payments, the item's rentals, the item
itself and its film, in that order, and finally sweeps films with
`length < 60` directly.  Each `delete_many`/selection is recorded as an
explicit operation so that the order of deletion is part of the model. -/

/-- One `delete_many` call: by field equality, or by a `$lt` bound (the
final sweep).  The delete filters of the phase address scalar fields. -/
inductive DelOp where
  | delEq : String → String → Value → DelOp
  | delLt : String → String → Int → DelOp
  deriving DecidableEq

/-- The collection a delete operates on. -/
def DelOp.target : DelOp → String
  | .delEq c _ _ => c
  | .delLt c _ _ => c

/-- Whether a document matches a delete filter (missing field as null). -/
def opMatches : DelOp → Doc → Bool
  | .delEq _ k v, d => decide (dget d k = v)
  | .delLt _ k b, d =>
      match dget d k with
      | .vInt n => decide (n < b)
      | _ => false

/-- Run one `delete_many`. -/
def applyOp (db : DB) (op : DelOp) : DB :=
  MDB.modifyColl db op.target (fun ds => ds.filter (fun d => !opMatches op d))

/-- The deletes issued for one selected inventory item (lines 495-500):
payments of each of the item's rentals, then its rentals, then the item,
then its film.  `rents` is the `$match` aggregation on `rental` at the
current state. -/
def itemBlock (db : DB) (item : Doc) : List DelOp :=
  let rents := evalPipeline db "rental"
    [Stage.matchEqS ["inventory_id"] (dget item "inventory_id")]
  rents.map (fun r => DelOp.delEq "payment" "rental_id" (dget r "rental_id"))
    ++ [ DelOp.delEq "rental" "inventory_id" (dget item "inventory_id")
       , DelOp.delEq "inventory" "inventory_id" (dget item "inventory_id")
       , DelOp.delEq "film" "film_id" (dget item "film_id") ]

/-- The per-item loop (lines 494-501), returning the final state and the
blocks of operations in the order they ran. -/
def runItems : DB → List Doc → DB × List (List DelOp)
  | db, [] => (db, [])
  | db, it :: rest =>
      let b := itemBlock db it
      let db1 := b.foldl applyOp db
      let res := runItems db1 rest
      (res.1, b :: res.2)

/-- The final direct sweep `delete_many({'length': {'$lt': 60}})` on `film`
(line 505). -/
def sweepOp : DelOp := DelOp.delLt "film" "length" 60

/-- The whole Deleting phase: select the inventory items of short films
against the initial state, run the per-item blocks, then the sweep. -/
def delete_short_films (db : DB) : DB × List (List DelOp) :=
  let items := evalPipeline db "inventory" short_films
  let res := runItems db items
  (applyOp res.1 sweepOp, res.2)

/-! ## The full run (driver `main`, lines 414-519)

`MDB.__init__` (line 354) drops any pre-existing `dvdrental` database before
the load; the read-phase aggregations only log their results and leave the
destination unchanged; the update phase reads the clock (`time.time_ns()`
for the regenerated staff passwords, `datetime.now()` for every
`last_update`), modelled as an injected stream of readings consumed in call
order. -/

/-- Modelled from the source's `datetime.now(timezone.utc).isoformat()`:
the rendering of a clock reading; distinct readings render distinctly. -/
def nowIso (t : Nat) : String := toString t

/-- Modelled from the source's `hashlib.md5(b"%.30f" %
time.time_ns()).hexdigest()`: some fixed function of the formatted clock
reading; no claim depends on the digest's value. -/
def md5hexdigest (input : String) : String := input

/-- The state of the `dvdrental` database after one full run of `main`'s
body against the given source, with `clock i` the value of the i-th clock
read of the update phase. -/
def dvdrentalRun (src : List (String × List Value)) (clock : Nat → Nat) :
    MDB.MongoSt :=
  let st0 : MDB.MongoSt := { colls := [], views := [] }
  let dict := PGDB.get_json_tables src (fun _ => false)
  let st1 : MDB.MongoSt := { st0 with colls := MDB.json_dict_insert st0.colls dict (fun _ => false) }
  let st2 := (MDB.create_view st1 "customer_list" "customer" get_pipeline_customer_view).state
  let staffDocs := evalPipeline st2.colls "staff" []
  let stepEmp := fun (acc : MDB.MongoSt × Nat) (emp : Doc) =>
    let pw := md5hexdigest (nowIso (clock acc.2))
    let ts := nowIso (clock (acc.2 + 1))
    ( { acc.1 with
        colls := MDB.updateOne acc.1.colls "staff" "staff_id" (dget emp "staff_id")
          [("password", Value.vStr pw), ("last_update", Value.vStr ts)] }
    , acc.2 + 2)
  let acc1 := staffDocs.foldl stepEmp (st2, 0)
  let st3 := acc1.1
  let k := acc1.2
  let newAddr : Doc :=
    [ ("address_id", Value.vInt 6969), ("address", Value.vStr "69 Mongo Drive")
    , ("district", Value.vStr "Alberta"), ("city_id", Value.vInt 300)
    , ("postal_code", Value.vStr ""), ("phone", Value.vStr "")
    , ("last_update", Value.vStr (nowIso (clock k))) ]
  let st4 : MDB.MongoSt := { st3 with colls := MDB.insertOne st3.colls "address" newAddr }
  let newStore : Doc :=
    [ ("store_id", Value.vInt 69), ("manager_staff_id", Value.vInt 1)
    , ("address_id", Value.vInt 6969)
    , ("last_update", Value.vStr (nowIso (clock (k + 1)))) ]
  let st5 : MDB.MongoSt := { st4 with colls := MDB.insertOne st4.colls "store" newStore }
  let setter :=
    [ ("store_id", Value.vInt 69)
    , ("last_update", Value.vStr (nowIso (clock (k + 2)))) ]
  let st6 : MDB.MongoSt := { st5 with colls := MDB.updateMany st5.colls "inventory" setter }
  { st6 with colls := (delete_short_films st6.colls).1 }

/-- The document-store server: its databases by name. -/
abbrev ClientSt := List (String × MDB.MongoSt)

/-- A named database of the server, if present. -/
def getNamedDB (client : ClientSt) (name : String) : Option MDB.MongoSt :=
  List.lookup name client

/-- One full run of `main` as it acts on the server: `MDB.__init__` drops
`dvdrental` (line 354), then the run rebuilds it. -/
def runFull (client : ClientSt) (src : List (String × List Value))
    (clock : Nat → Nat) : ClientSt :=
  client.filter (fun p => p.1 ≠ "dvdrental") ++
    [("dvdrental", dvdrentalRun src clock)]

/-! ## Connection lifetime in `main` (source lines 414-519)

`main` reads the postgres config, constructs `PGDB` (whose `__init__`
swallows connection errors, leaving `self.conn` unset when `connect`
raised), reads the mongodb config, constructs `MDB` (whose `__init__` also
swallows everything) — all before the `try` of line 421 — and only then
enters the `try` whose `finally` closes the connection when the `conn`
attribute exists.  Everything raised inside the body is caught at line 511.
`read_config` raises `FileNotFoundError` when the requested section is
missing (line 607). -/

/-- The environment of one invocation of `main`: which of the fallible
steps preceding the `try` succeed. -/
structure DriverEnv where
  pgConfigOk : Bool
  pgConnectOk : Bool
  mongoConfigOk : Bool
  deriving DecidableEq

/-- What an invocation of `main` did with the source connection, and
whether an exception escaped `main`. -/
structure DriverOutcome where
  connOpened : Bool
  connClosed : Bool
  raised : Bool
  deriving DecidableEq

/-- Control-flow skeleton of `main` for the connection lifetime. -/
def main_flow (e : DriverEnv) : DriverOutcome :=
  if !e.pgConfigOk then
    { connOpened := false, connClosed := false, raised := true }
  else
    let opened := e.pgConnectOk
    if !e.mongoConfigOk then
      { connOpened := opened, connClosed := false, raised := true }
    else
      { connOpened := opened, connClosed := opened, raised := false }

/-! ## Characterization of the extraction loop -/

/-- `get_json_tables` returns exactly the transforms of the longest prefix of
tables that extract successfully: the loop body appends one entry per table
until the first failure ends the loop, and the `finally` returns the dict. -/
theorem get_json_tables_eq (src : List (String × List Value))
    (fail : String → Bool) :
    PGDB.get_json_tables src fail = PGDB.extractedTables src fail := by
  induction src with
  | nil => rfl
  | cons e rest ih =>
    obtain ⟨t, rows⟩ := e
    by_cases hf : fail t
    · simp [PGDB.get_json_tables, PGDB.extractedTables, PGDB.extractOk, hf]
    · by_cases he : rows.isEmpty
      · simp [PGDB.get_json_tables, PGDB.extractedTables, PGDB.extractOk,
              PGDB.json_agg, hf, he]
      · simp only [PGDB.get_json_tables, PGDB.json_agg, hf, he, if_neg,
          Bool.false_eq_true, not_false_eq_true, if_false, ite_false]
        rw [ih]
        simp [PGDB.extractedTables, PGDB.extractOk, hf, he]

/-! ## Characterization of the load loop -/

/-- `json_dict_insert` performs the bulk inserts of the longest prefix of the
dict whose tables load successfully and stops at the first failure. -/
theorem json_dict_insert_eq (dict : List (String × List Value)) (st : DB)
    (fail : String → Bool) :
    MDB.json_dict_insert st dict fail =
      (dict.takeWhile (MDB.loadOk fail)).foldl
        (fun s e => MDB.dbInsert s e.1 ((MDB.asDocs e.2).getD [])) st := by
  induction dict generalizing st with
  | nil => rfl
  | cons e rest ih =>
    obtain ⟨t, vals⟩ := e
    by_cases hf : fail t
    · simp [MDB.json_dict_insert, MDB.loadOk, hf]
    · rcases h : MDB.asDocs vals with _ | ds
      · simp [MDB.json_dict_insert, MDB.loadOk, hf, h]
      · rcases ds with _ | ⟨d, ds⟩
        · simp [MDB.json_dict_insert, MDB.loadOk, hf, h]
        · simp only [MDB.json_dict_insert, hf, if_neg, Bool.false_eq_true,
            not_false_eq_true, ite_false, h]
          rw [ih]
          simp [MDB.loadOk, hf, h]

/-- C10: `PGDB.get_json_tables` never raises: every internal exception
(driver errors, the `TypeError` from an empty table's NULL aggregate) ends
the loop, and the `return` in the `finally` block yields the dict built so
far — exactly the transforms of the tables extracted before the error. -/
theorem get_json_tables_total_partial (src : List (String × List Value))
    (fail : String → Bool) :
    PGDB.get_json_tables src fail = PGDB.extractedTables src fail :=
  get_json_tables_eq src fail

/-- C2 (counterexample): with a source whose first table `a` is empty (its
extraction fails) and whose second table `b` extracts fine on its own, the
returned mapping has no entry for `b`: the loop does not continue past the
failed table, refuting the claim that every remaining table is extracted. -/
theorem get_json_tables_no_continue_cx :
    PGDB.get_json_tables [("a", []), ("b", [Value.vDoc []])] (fun _ => false)
        = [] ∧
    List.lookup "b"
        (PGDB.get_json_tables [("a", []), ("b", [Value.vDoc []])]
          (fun _ => false)) = none ∧
    PGDB.get_json_tables [("b", [Value.vDoc []])] (fun _ => false)
        = [("b", [Value.vDoc []])] := by
  refine ⟨by decide, by decide, by decide⟩

/-- C2 (amended): when extraction of one table fails, the failure is logged
and the loop stops: the tables after the failing one are not extracted, the
failed table is not retried, and the function still returns (the run is not
aborted) with the mapping of the tables extracted before the failure. -/
theorem get_json_tables_stops_at_failure (pre : List (String × List Value))
    (t : String) (rows : List Value) (post : List (String × List Value))
    (fail : String → Bool)
    (hpre : ∀ e ∈ pre, PGDB.extractOk fail e = true)
    (ht : PGDB.extractOk fail (t, rows) = false) :
    PGDB.get_json_tables (pre ++ (t, rows) :: post) fail =
      pre.map (fun e => (e.1, e.2.filter (fun v => v ≠ Value.vNull))) := by
  rw [get_json_tables_eq]
  unfold PGDB.extractedTables
  have : (pre ++ (t, rows) :: post).takeWhile (PGDB.extractOk fail) = pre := by
    induction pre with
    | nil => simp [List.takeWhile_cons, ht]
    | cons e rest ih =>
      have he := hpre e (by simp)
      simp [List.takeWhile_cons, he,
        ih (fun x hx => hpre x (List.mem_cons_of_mem _ hx))]
  rw [this]

/-- C2 (witness for the amended theorem). -/
theorem get_json_tables_stops_at_failure_witness :
    ((∀ e ∈ [("a", [Value.vDoc []])],
        PGDB.extractOk (fun _ => false) e = true) ∧
      PGDB.extractOk (fun _ => false) ("b", []) = false) ∧
    PGDB.get_json_tables
        ([("a", [Value.vDoc []])] ++ ("b", []) :: [("c", [Value.vDoc []])])
        (fun _ => false) =
      [("a", [Value.vDoc []])].map
        (fun e => (e.1, e.2.filter (fun v => v ≠ Value.vNull))) :=
  ⟨⟨by decide, by decide⟩,
    get_json_tables_stops_at_failure [("a", [Value.vDoc []])] "b" []
      [("c", [Value.vDoc []])] (fun _ => false) (by decide) (by decide)⟩

/-- C3 (counterexample): with a dict holding tables `a` and `b` where the
insert of `a` errors and the insert of `b` would succeed (as the second
conjunct shows, under the same oracle), `b` is never loaded: the loop does
not continue past a per-table insert failure, refuting the claim. -/
theorem json_dict_insert_no_continue_cx :
    MDB.json_dict_insert []
        [("a", [Value.vDoc []]), ("b", [Value.vDoc [("x", Value.vInt 1)]])]
        (fun t => t == "a") = [] ∧
    List.lookup "b"
        (MDB.json_dict_insert []
          [("a", [Value.vDoc []]), ("b", [Value.vDoc [("x", Value.vInt 1)]])]
          (fun t => t == "a")) = none ∧
    MDB.json_dict_insert [] [("b", [Value.vDoc [("x", Value.vInt 1)]])]
        (fun t => t == "a") = [("b", [[("x", Value.vInt 1)]])] := by
  refine ⟨by decide, by decide, by decide⟩

/-- C3 (amended): `json_dict_insert` iterates the mapping with one bulk
insert per table, but inside a single `try`: a per-table insert failure is
caught and logged once and ends the loop, so the tables after the failing
one are not loaded — the result is as if the mapping had ended just before
the failing table — and no success/failure tally is produced (the success
count is only logged on the all-success path). -/
theorem json_dict_insert_stops_at_failure (st : DB)
    (pre : List (String × List Value)) (t : String) (vals : List Value)
    (post : List (String × List Value)) (fail : String → Bool)
    (hpre : ∀ e ∈ pre, MDB.loadOk fail e = true)
    (ht : MDB.loadOk fail (t, vals) = false) :
    MDB.json_dict_insert st (pre ++ (t, vals) :: post) fail =
      MDB.json_dict_insert st pre fail := by
  rw [json_dict_insert_eq, json_dict_insert_eq]
  have : (pre ++ (t, vals) :: post).takeWhile (MDB.loadOk fail)
      = pre.takeWhile (MDB.loadOk fail) := by
    induction pre with
    | nil => simp [List.takeWhile_cons, ht]
    | cons e rest ih =>
      have he := hpre e (by simp)
      simp [List.takeWhile_cons, he,
        ih (fun x hx => hpre x (List.mem_cons_of_mem _ hx))]
  rw [this]

/-- C3 (witness for the amended theorem). -/
theorem json_dict_insert_stops_at_failure_witness :
    ((∀ e ∈ [("a", [Value.vDoc []])],
        MDB.loadOk (fun t => t == "b") e = true) ∧
      MDB.loadOk (fun t => t == "b") ("b", [Value.vDoc []]) = false) ∧
    MDB.json_dict_insert []
        ([("a", [Value.vDoc []])] ++
          ("b", [Value.vDoc []]) :: [("c", [Value.vDoc []])])
        (fun t => t == "b") =
      MDB.json_dict_insert [] [("a", [Value.vDoc []])] (fun t => t == "b") :=
  ⟨⟨by decide, by decide⟩,
    json_dict_insert_stops_at_failure [] [("a", [Value.vDoc []])] "b"
      [Value.vDoc []] [("c", [Value.vDoc []])] (fun t => t == "b")
      (by decide) (by decide)⟩

/-! ## Count preservation of the migration -/

/-- A predicate true on every element takes the whole list. -/
theorem takeWhile_all {α : Type} (p : α → Bool) :
    ∀ (l : List α), (∀ a ∈ l, p a = true) → l.takeWhile p = l
  | [], _ => rfl
  | a :: l, h => by
      simp [List.takeWhile_cons, h a (by simp),
        takeWhile_all p l (fun x hx => h x (by simp [hx]))]

/-- A batch of JSON objects converts to documents, one per element. -/
theorem asDocs_of_docs (vals : List Value)
    (h : ∀ v ∈ vals, ∃ d, v = Value.vDoc d) :
    ∃ ds, MDB.asDocs vals = some ds ∧ ds.length = vals.length := by
  induction vals with
  | nil => exact ⟨[], rfl, rfl⟩
  | cons v vs ih =>
    obtain ⟨d, rfl⟩ := h v (by simp)
    obtain ⟨ds, hds, hlen⟩ := ih (fun x hx => h x (by simp [hx]))
    exact ⟨d :: ds, by simp [MDB.asDocs, hds], by simp [hlen]⟩

/-- Inserting under a fresh name appends a fresh collection. -/
theorem dbInsert_of_not_mem :
    ∀ (acc : DB) (t : String) (docs : List Doc),
      t ∉ acc.map Prod.fst → MDB.dbInsert acc t docs = acc ++ [(t, docs)]
  | [], _, _, _ => rfl
  | (n, ds) :: rest, t, docs, h => by
      have h1 : n ≠ t := fun he => h (by simp [he])
      have h2 : t ∉ rest.map Prod.fst := fun he => h (by simp [he])
      simp [MDB.dbInsert, h1, dbInsert_of_not_mem rest t docs h2]

/-- Folding inserts of pairwise-fresh names appends one collection each. -/
theorem foldl_dbInsert_fresh (g : (String × List Value) → List Doc) :
    ∀ (src : List (String × List Value)) (acc : DB),
      (src.map Prod.fst).Nodup →
      (∀ n ∈ src.map Prod.fst, n ∉ acc.map Prod.fst) →
      src.foldl (fun s e => MDB.dbInsert s e.1 (g e)) acc =
        acc ++ src.map (fun e => (e.1, g e)) := by
  intro src
  induction src with
  | nil => intro acc _ _; simp
  | cons e rest ih =>
    intro acc hnd hdis
    simp only [List.map_cons, List.nodup_cons] at hnd
    simp only [List.foldl_cons]
    rw [dbInsert_of_not_mem acc e.1 (g e) (hdis e.1 (by simp))]
    rw [ih (acc ++ [(e.1, g e)]) hnd.2 ?_]
    · simp
    · intro n hn hc
      rw [List.map_append, List.mem_append] at hc
      rcases hc with hc | hc
      · exact hdis n
          (by simp only [List.map_cons]; exact List.mem_cons_of_mem _ hn) hc
      · simp only [List.map_cons, List.map_nil, List.mem_singleton] at hc
        exact hnd.1 (hc ▸ hn)

/-- In a database built from distinctly-named tables, each table's name
heads exactly one collection. -/
theorem filter_name_one (g : (String × List Value) → List Doc) :
    ∀ (src : List (String × List Value)) (e : String × List Value),
      (src.map Prod.fst).Nodup → e ∈ src →
      ((src.map (fun a => (a.1, g a))).filter
        (fun p => p.1 = e.1)).length = 1 := by
  intro src
  induction src with
  | nil => intro e _ he; cases he
  | cons a rest ih =>
    intro e hnd he
    simp only [List.map_cons, List.nodup_cons] at hnd
    rcases List.mem_cons.mp he with rfl | he'
    · have hnone : (rest.map (fun a => (a.1, g a))).filter
          (fun p => p.1 = e.1) = [] := by
        rw [List.filter_eq_nil_iff]
        intro p hp
        simp only [List.mem_map] at hp
        obtain ⟨b, hb, rfl⟩ := hp
        simp only [decide_eq_true_eq]
        intro hc
        exact hnd.1 (hc ▸ List.mem_map_of_mem Prod.fst hb)
      simp [List.filter_cons, hnone]
    · have hne : a.1 ≠ e.1 := by
        intro hc
        exact hnd.1 (hc ▸ List.mem_map_of_mem Prod.fst he')
      simp [List.filter_cons, hne, ih e hnd.2 he']

/-- In a database built from distinctly-named tables, looking a table up
finds its batch. -/
theorem lookup_map_name (g : (String × List Value) → List Doc) :
    ∀ (src : List (String × List Value)) (e : String × List Value),
      (src.map Prod.fst).Nodup → e ∈ src →
      List.lookup e.1 (src.map (fun a => (a.1, g a))) = some (g e) := by
  intro src
  induction src with
  | nil => intro e _ he; cases he
  | cons a rest ih =>
    intro e hnd he
    simp only [List.map_cons, List.nodup_cons] at hnd
    rcases List.mem_cons.mp he with rfl | he'
    · simp [List.lookup]
    · have hne : e.1 ≠ a.1 := by
        intro hc
        exact hnd.1 (hc ▸ List.mem_map_of_mem Prod.fst he')
      have hb : (e.1 == a.1) = false := beq_eq_false_iff_ne.mpr hne
      simp [List.lookup, hb, ih e hnd.2 he']

/-- C1: after a successful run of the migration — every table extracted by
`PGDB.get_json_tables` (no driver error, no empty table: rows are JSON
objects) and every batch inserted by `MDB.json_dict_insert` without error —
the destination holds exactly one collection named after each source table,
with document count equal to that table's row count. -/
theorem migration_preserves_counts (src : List (String × List Value))
    (hnd : (src.map Prod.fst).Nodup)
    (hrows : ∀ e ∈ src, e.2 ≠ [] ∧ ∀ v ∈ e.2, ∃ d, v = Value.vDoc d) :
    ∀ e ∈ src,
      ((MDB.json_dict_insert []
          (PGDB.get_json_tables src (fun _ => false))
          (fun _ => false)).filter (fun p => p.1 = e.1)).length = 1 ∧
      (getColl
          (MDB.json_dict_insert []
            (PGDB.get_json_tables src (fun _ => false)) (fun _ => false))
          e.1).length = e.2.length := by
  have hdict : PGDB.get_json_tables src (fun _ => false) = src := by
    rw [get_json_tables_eq]
    unfold PGDB.extractedTables
    rw [takeWhile_all _ src ?_]
    · have : ∀ e ∈ src,
          (e.1, e.2.filter (fun v => v ≠ Value.vNull)) = e := by
        intro e he
        have : e.2.filter (fun v => v ≠ Value.vNull) = e.2 := by
          rw [List.filter_eq_self]
          intro v hv
          obtain ⟨d, rfl⟩ := (hrows e he).2 v hv
          simp
        rw [this]
      rw [List.map_congr_left this]
      simp
    · intro e he
      have h1 : e.2 ≠ [] := (hrows e he).1
      simp [PGDB.extractOk, List.isEmpty_iff, h1]
  rw [hdict]
  have hdb : MDB.json_dict_insert [] src (fun _ => false) =
      src.map (fun e => (e.1, (MDB.asDocs e.2).getD [])) := by
    rw [json_dict_insert_eq]
    rw [takeWhile_all _ src ?_]
    · exact foldl_dbInsert_fresh _ src [] hnd (by simp)
    · intro e he
      obtain ⟨ds, hds, hlen⟩ := asDocs_of_docs e.2 (hrows e he).2
      have h1 : ds ≠ [] := by
        intro hc
        exact (hrows e he).1 (List.length_eq_zero.mp (by simp [← hlen, hc]))
      cases ds with
      | nil => exact absurd rfl h1
      | cons d ds' => simp [MDB.loadOk, hds]
  rw [hdb]
  intro e he
  refine ⟨filter_name_one _ src e hnd he, ?_⟩
  unfold getColl
  rw [lookup_map_name _ src e hnd he]
  obtain ⟨ds, hds, hlen⟩ := asDocs_of_docs e.2 (hrows e he).2
  simp [hds, hlen]

/-- C1 (witness): a two-table source, all hypotheses discharged concretely. -/
theorem migration_preserves_counts_witness :
    ((([("a", [Value.vDoc [("x", Value.vInt 1)]]),
        ("b", [Value.vDoc [], Value.vDoc []])].map Prod.fst).Nodup) ∧
      (∀ e ∈ [("a", [Value.vDoc [("x", Value.vInt 1)]]),
          ("b", [Value.vDoc [], Value.vDoc []])],
        e.2 ≠ [] ∧ ∀ v ∈ e.2, ∃ d, v = Value.vDoc d)) ∧
    (∀ e ∈ [("a", [Value.vDoc [("x", Value.vInt 1)]]),
        ("b", [Value.vDoc [], Value.vDoc []])],
      ((MDB.json_dict_insert []
          (PGDB.get_json_tables
            [("a", [Value.vDoc [("x", Value.vInt 1)]]),
             ("b", [Value.vDoc [], Value.vDoc []])] (fun _ => false))
          (fun _ => false)).filter (fun p => p.1 = e.1)).length = 1 ∧
      (getColl
          (MDB.json_dict_insert []
            (PGDB.get_json_tables
              [("a", [Value.vDoc [("x", Value.vInt 1)]]),
               ("b", [Value.vDoc [], Value.vDoc []])] (fun _ => false))
            (fun _ => false))
          e.1).length = e.2.length) := by
  have h2 : ∀ e ∈ [("a", [Value.vDoc [("x", Value.vInt 1)]]),
      ("b", [Value.vDoc [], Value.vDoc []])],
      e.2 ≠ [] ∧ ∀ v ∈ e.2, ∃ d, v = Value.vDoc d := by
    intro e he
    simp only [List.mem_cons, List.not_mem_nil, or_false] at he
    rcases he with rfl | rfl
    · refine ⟨by decide, ?_⟩
      intro v hv
      simp only [List.mem_singleton] at hv
      exact ⟨_, hv⟩
    · refine ⟨by decide, ?_⟩
      intro v hv
      simp only [List.mem_cons, List.not_mem_nil, or_false] at hv
      rcases hv with rfl | rfl
      · exact ⟨[], rfl⟩
      · exact ⟨[], rfl⟩
  exact ⟨⟨by decide, h2⟩,
    migration_preserves_counts
      [("a", [Value.vDoc [("x", Value.vInt 1)]]),
       ("b", [Value.vDoc [], Value.vDoc []])]
      (by decide) h2⟩

/-! ## Pipeline evaluation and `MDB.aggregate` error behaviour -/

/-- C4 (counterexample): a database with a `film_actor` collection and no
`actor` collection; `find_top_actors` references `actor` as its `$lookup`
foreign collection (and its `$addFields` concatenates field paths that do
not exist on the stream).  Evaluation does not fail with a `PipelineError`:
`MDB.aggregate` returns a successful result stream. -/
theorem aggregate_missing_collection_cx :
    List.lookup "actor" [("film_actor", [[("actor_id", Value.vInt 1)]])]
        = none ∧
    MDB.aggregate [("film_actor", [[("actor_id", Value.vInt 1)]])]
        "film_actor" find_top_actors
      = Except.ok [[("name", Value.vNull), ("count", Value.vInt 1)]] := by
  refine ⟨by decide, by rfl⟩

/-- C4 (amended): when a pipeline references a field path or foreign
collection that does not exist, evaluation does not fail: a `$lookup`
against a missing foreign collection attaches the empty list to every
document (and missing paths resolve to null), and `MDB.aggregate` surfaces
no error of any kind to the driver — its bare `except` catches and logs —
so the driver always proceeds to the next read pipeline. -/
theorem aggregate_never_fails (db : DB) (coll : String) (p : List Stage)
    (frm : String) (loc ff : List String) (asF : String) (docs : List Doc)
    (hmiss : List.lookup frm db = none) :
    (∃ out, MDB.aggregate db coll p = Except.ok out) ∧
    evalLookup db frm loc ff asF docs =
      docs.map (fun d => dset d asF (Value.vArr [])) := by
  refine ⟨⟨_, rfl⟩, ?_⟩
  unfold evalLookup getColl
  rw [hmiss]
  simp

/-- C4 (witness for the amended theorem). -/
theorem aggregate_never_fails_witness :
    List.lookup "actor" [("film_actor", [[("actor_id", Value.vInt 1)]])]
        = none ∧
    ((∃ out, MDB.aggregate [("film_actor", [[("actor_id", Value.vInt 1)]])]
        "film_actor" find_top_actors = Except.ok out) ∧
      evalLookup [("film_actor", [[("actor_id", Value.vInt 1)]])] "actor"
          ["actor_id"] ["actor_id"] "actor" [[("actor_id", Value.vInt 1)]] =
        [[("actor_id", Value.vInt 1)]].map
          (fun d => dset d "actor" (Value.vArr []))) :=
  ⟨by decide,
    aggregate_never_fails [("film_actor", [[("actor_id", Value.vInt 1)]])]
      "film_actor" find_top_actors "actor" ["actor_id"] ["actor_id"] "actor"
      [[("actor_id", Value.vInt 1)]] (by decide)⟩

/-! ## `MDB.create_view` on an existing name -/

/-- C5 (counterexample): re-invoking `create_view` on a state where the name
`v` is already bound to a view surfaces nothing to the caller — certainly
not a `ViewAlreadyExists` — because the bare `except` swallows the
`CollectionInvalid` raised by the server. -/
theorem create_view_no_surfaced_error_cx :
    (MDB.create_view
        { colls := [], views := [("v", "customer", [Stage.limitS 1])] }
        "v" "customer" [Stage.limitS 2]).raised = none ∧
    (MDB.create_view
        { colls := [], views := [("v", "customer", [Stage.limitS 1])] }
        "v" "customer" [Stage.limitS 2]).raised
      ≠ some MDB.ViewError.viewAlreadyExists := by
  refine ⟨by decide, by decide⟩

/-- C5 (amended): invoking `create_view` a second time with a name already
bound to a view does not create or overwrite anything: the underlying
`create_collection` is refused, the failure is caught and logged inside
`create_view` rather than surfaced to the caller as a `ViewAlreadyExists`,
and the original view's bound pipeline is left unchanged. -/
theorem create_view_existing_unchanged (st : MDB.MongoSt)
    (name viewon viewon' : String) (p p' : List Stage)
    (hmem : List.lookup name st.views = some (viewon, p)) :
    (MDB.create_view st name viewon' p').state = st ∧
    (MDB.create_view st name viewon' p').loggedFailure = true ∧
    (MDB.create_view st name viewon' p').raised = none ∧
    List.lookup name (MDB.create_view st name viewon' p').state.views
      = some (viewon, p) := by
  unfold MDB.create_view
  simp [hmem]

/-- C5 (witness for the amended theorem). -/
theorem create_view_existing_unchanged_witness :
    List.lookup "v"
        (MDB.MongoSt.views
          { colls := [], views := [("v", "customer", [Stage.limitS 1])] })
      = some ("customer", [Stage.limitS 1]) ∧
    ((MDB.create_view
        { colls := [], views := [("v", "customer", [Stage.limitS 1])] }
        "v" "store" [Stage.limitS 2]).state
      = { colls := [], views := [("v", "customer", [Stage.limitS 1])] } ∧
     (MDB.create_view
        { colls := [], views := [("v", "customer", [Stage.limitS 1])] }
        "v" "store" [Stage.limitS 2]).loggedFailure = true ∧
     (MDB.create_view
        { colls := [], views := [("v", "customer", [Stage.limitS 1])] }
        "v" "store" [Stage.limitS 2]).raised = none ∧
     List.lookup "v"
        (MDB.create_view
          { colls := [], views := [("v", "customer", [Stage.limitS 1])] }
          "v" "store" [Stage.limitS 2]).state.views
      = some ("customer", [Stage.limitS 1])) :=
  ⟨by decide,
    create_view_existing_unchanged
      { colls := [], views := [("v", "customer", [Stage.limitS 1])] }
      "v" "customer" "store" [Stage.limitS 1] [Stage.limitS 2] (by decide)⟩

/-! ## Connection lifetime -/

/-- C7 (counterexample): when the mongodb section of `database.ini` is
missing, `read_config` raises `FileNotFoundError` on line 418 — after the
source connection was opened, before the `try` of line 421 — so `main` exits
with the connection opened and never closed. -/
theorem main_flow_conn_leak_cx :
    (main_flow
        { pgConfigOk := true, pgConnectOk := true, mongoConfigOk := false })
      = { connOpened := true, connClosed := false, raised := true } := by
  decide

/-- C7 (amended): provided the mongodb config read succeeds (the one
fallible step between opening the source connection and entering the `try`),
every exit path of `main` releases the source connection: every failure in
extraction, load, reads, mutations or deletes is caught at line 511 and the
`finally` closes the connection whenever it was opened. -/
theorem main_flow_releases_conn (e : DriverEnv)
    (hm : e.mongoConfigOk = true) :
    (main_flow e).connOpened = true → (main_flow e).connClosed = true := by
  rcases e with ⟨pc, po, mc⟩
  cases pc <;> cases po <;> cases mc <;> simp_all [main_flow]

/-- C7 (witness for the amended theorem). -/
theorem main_flow_releases_conn_witness :
    (DriverEnv.mongoConfigOk
        { pgConfigOk := true, pgConnectOk := true, mongoConfigOk := true })
      = true ∧
    (main_flow
        { pgConfigOk := true, pgConnectOk := true, mongoConfigOk := true
          }).connOpened = true ∧
    (main_flow
        { pgConfigOk := true, pgConnectOk := true, mongoConfigOk := true
          }).connClosed = true :=
  ⟨rfl, rfl,
    main_flow_releases_conn
      { pgConfigOk := true, pgConnectOk := true, mongoConfigOk := true }
      rfl rfl⟩

/-! ## `$unwind` with preserveNullAndEmptyArrays -/

/-- Removing an absent key changes nothing. -/
theorem dremove_of_none (d : Doc) (k : String)
    (h : dlookup d k = none) : dremove d k = d := by
  induction d with
  | nil => rfl
  | cons p rest ih =>
    obtain ⟨k', v⟩ := p
    by_cases hkk : (k == k') = true
    · simp [dlookup, List.lookup, hkk] at h
    · have h2 : dlookup rest k = none := by
        simpa [dlookup, List.lookup, hkk] using h
      have hne : k' ≠ k := fun hc => hkk (by simp [hc])
      have h3 := ih h2
      simp only [dremove] at h3 ⊢
      rw [List.filter_cons,
        if_pos (show decide ((k', v).1 ≠ k) = true by simp [hne]), h3]

/-- Unwinding one document with the preserve flag yields at least one
output. -/
theorem one_le_unwindDoc_length (path : String) (d : Doc) :
    1 ≤ (unwindDoc path true d).length := by
  unfold unwindDoc
  split <;> simp

/-- C9: the `$unwind` stage with `preserveNullAndEmptyArrays: True` — the
form used on `actor` in `find_top_actors` and on `address` in the customer
view pipeline — never drops records: for every input stream the output is at
least as long, and every input document whose list field is empty or absent
passes through exactly once, with the field left absent (the missing/empty
placeholder). -/
theorem unwind_preserve_no_drop :
    Stage.unwindS "actor" true ∈ find_top_actors ∧
    Stage.unwindS "address" true ∈ get_pipeline_customer_view ∧
    ∀ (path : String) (docs : List Doc),
      docs.length ≤ (evalUnwind path true docs).length ∧
      ∀ d ∈ docs,
        (dlookup d path = none ∨ dlookup d path = some (Value.vArr [])) →
        unwindDoc path true d = [dremove d path] := by
  refine ⟨by decide, by decide, ?_⟩
  intro path docs
  constructor
  · induction docs with
    | nil => simp [evalUnwind]
    | cons d ds ih =>
      have h1 := one_le_unwindDoc_length path d
      simp only [evalUnwind, List.flatMap_cons, List.length_append,
        List.length_cons] at *
      omega
  · intro d _ hcase
    rcases hcase with h | h
    · rw [unwindDoc, h, dremove_of_none d path h]
      simp
    · rw [unwindDoc, h]
      simp

/-- C9 (witness): a document with no `actor` field unwinds to exactly
itself. -/
theorem unwind_preserve_no_drop_witness :
    (dlookup [("a", Value.vInt 1)] "actor" = none ∨
      dlookup [("a", Value.vInt 1)] "actor" = some (Value.vArr [])) ∧
    unwindDoc "actor" true [("a", Value.vInt 1)]
      = [dremove [("a", Value.vInt 1)] "actor"] :=
  ⟨Or.inl (by decide),
    (unwind_preserve_no_drop.2.2 "actor" [[("a", Value.vInt 1)]]).2
      [("a", Value.vInt 1)] (by simp) (Or.inl (by decide))⟩

/-! ## Idempotence of re-execution -/

/-- Filtering out the dropped database leaves nothing to find under its
name. -/
theorem lookup_dropped_none (client : ClientSt) :
    List.lookup "dvdrental" (client.filter (fun p => p.1 ≠ "dvdrental"))
      = none := by
  induction client with
  | nil => rfl
  | cons p rest ih =>
    obtain ⟨a, b⟩ := p
    rw [List.filter_cons]
    by_cases hp : a = "dvdrental"
    · rw [if_neg (by simp [hp])]
      exact ih
    · rw [if_pos (by simp [hp])]
      have hb : ("dvdrental" == a) = false :=
        beq_eq_false_iff_ne.mpr (fun hc => hp hc.symm)
      have hstep :
          List.lookup "dvdrental"
              ((a, b) ::
                List.filter (fun p => decide (p.1 ≠ "dvdrental")) rest)
            = List.lookup "dvdrental"
                (List.filter (fun p => decide (p.1 ≠ "dvdrental")) rest) := by
        simp [List.lookup, hb]
      rw [hstep]
      exact ih

/-- Lookup skips a list in which the key does not occur. -/
theorem lookup_append_of_none {α β : Type} [BEq α] (l1 l2 : List (α × β))
    (k : α) (h : List.lookup k l1 = none) :
    List.lookup k (l1 ++ l2) = List.lookup k l2 := by
  induction l1 with
  | nil => rfl
  | cons p rest ih =>
    by_cases hb : (k == p.1) = true
    · simp [List.lookup, hb] at h
    · simp only [List.lookup, Bool.not_eq_true] at h ⊢
      simp only [List.cons_append, List.lookup, hb] at *
      exact ih h

/-- C8 (counterexample): two successive full runs against the same (empty)
source, the second observing later clock readings, leave different
`dvdrental` states: the update phase writes clock-derived `last_update`
values (and regenerated passwords), so the destination states of the two
runs are not identical. -/
theorem runFull_twice_not_identical_cx :
    getNamedDB (runFull [] [] (fun _ => 0)) "dvdrental"
      ≠ getNamedDB (runFull [] [] (fun i => i + 100)) "dvdrental" := by
  decide

/-- C8 (amended): the `dvdrental` drop in `MDB.__init__` runs before any
load, so re-execution is idempotent in the sense the reset can give: the
destination database after a full run does not depend on the destination
state a previous run left behind — it is a function of the source and of
the run's clock readings alone (runs observing identical clock readings
yield identical states, while successive runs differ exactly in the
clock-derived fields). -/
theorem runFull_ignores_previous (prev prev' : ClientSt)
    (src : List (String × List Value)) (clock : Nat → Nat) :
    getNamedDB (runFull prev src clock) "dvdrental"
      = getNamedDB (runFull prev' src clock) "dvdrental" := by
  unfold getNamedDB runFull
  rw [lookup_append_of_none _ _ _ (lookup_dropped_none prev),
      lookup_append_of_none _ _ _ (lookup_dropped_none prev')]

/-! ## Path and field lemmas for the delete phase -/

/-- Resolving one path component against a document is a lookup. -/
theorem resolveField_eq (d : Doc) (k : String) (ks : List String) :
    resolveField d k ks =
      match dlookup d k with
      | some v => resolveAll v ks
      | none => [] := by
  induction d with
  | nil => rfl
  | cons p rest ih =>
    obtain ⟨k', v⟩ := p
    by_cases h : k' = k
    · subst h
      simp [resolveField, dlookup, List.lookup]
    · have hb : (k == k') = false := beq_eq_false_iff_ne.mpr (Ne.symm h)
      simp [resolveField, h, dlookup, List.lookup, hb]
      exact ih

/-- The empty path resolves to the value itself. -/
theorem resolveAll_nil (v : Value) : resolveAll v [] = [v] := by
  cases v <;> rfl

/-- A single-key path resolves to the looked-up value. -/
theorem resolveAll_single (d : Doc) (k : String) :
    resolveAll (Value.vDoc d) [k] =
      match dlookup d k with
      | some v => [v]
      | none => [] := by
  rw [resolveAll, resolveField_eq]
  cases dlookup d k <;> simp [resolveAll_nil]

/-- Resolution distributes over array elements. -/
theorem resolveList_eq_flatMap (xs : List Value) (ks : List String) :
    resolveList xs ks = xs.flatMap (fun x => resolveAll x ks) := by
  induction xs with
  | nil => rfl
  | cons x xs ih => simp [resolveList, ih]

/-- Setting a field makes it visible. -/
theorem dlookup_dset_self (d : Doc) (k : String) (v : Value) :
    dlookup (dset d k v) k = some v := by
  induction d with
  | nil => simp [dset, dlookup, List.lookup]
  | cons p rest ih =>
    obtain ⟨k', w⟩ := p
    by_cases h : k' = k
    · simp [dset, h, dlookup, List.lookup]
    · have hb : (k == k') = false := beq_eq_false_iff_ne.mpr (Ne.symm h)
      simp [dset, h, dlookup, List.lookup, hb]
      exact ih

/-- Setting a field leaves the other fields alone. -/
theorem dlookup_dset_ne (d : Doc) (k k' : String) (v : Value)
    (h : k' ≠ k) : dlookup (dset d k v) k' = dlookup d k' := by
  induction d with
  | nil =>
    have hb : (k' == k) = false := beq_eq_false_iff_ne.mpr h
    simp [dset, dlookup, List.lookup, hb]
  | cons p rest ih =>
    obtain ⟨k0, w⟩ := p
    by_cases h0 : k0 = k
    · subst h0
      have hb : (k' == k0) = false := beq_eq_false_iff_ne.mpr h
      simp [dset, dlookup, List.lookup, hb]
    · simp only [dset, h0, if_false, ite_false]
      by_cases h1 : k' = k0
      · subst h1
        simp [dlookup, List.lookup]
      · have hb : (k' == k0) = false := beq_eq_false_iff_ne.mpr h1
        simp [dlookup, List.lookup, hb] at ih ⊢
        exact ih

/-- `dget` version of `dlookup_dset_ne`. -/
theorem dget_dset_ne (d : Doc) (k k' : String) (v : Value) (h : k' ≠ k) :
    dget (dset d k v) k' = dget d k' := by
  unfold dget
  rw [dlookup_dset_ne d k k' v h]

/-- A field holding a non-null value is present with it. -/
theorem dlookup_of_dget (d : Doc) (k : String) (v : Value)
    (h : dget d k = v) (hv : v ≠ Value.vNull) : dlookup d k = some v := by
  unfold dget at h
  cases hl : dlookup d k with
  | none => rw [hl] at h; exact absurd h.symm hv
  | some w => rw [hl] at h; simpa using h

/-- Resolving `film.length`-style paths through an attached array of
documents collects the looked-up field of each attached document. -/
theorem resolve_attached (i : Doc) (fs : List Doc) (asF k2 : String) :
    resolveAll (Value.vDoc (dset i asF (Value.vArr (fs.map Value.vDoc))))
        [asF, k2]
      = fs.flatMap (fun f =>
          match dlookup f k2 with
          | some v => [v]
          | none => []) := by
  rw [resolveAll, resolveField_eq, dlookup_dset_self]
  show resolveList (fs.map Value.vDoc) [k2] = _
  rw [resolveList_eq_flatMap, List.flatMap_map]
  refine List.flatMap_congr ?_ -- pointwise
  intro f _
  exact resolveAll_single f k2

/-! ## Survival under sequences of deletes -/

/-- A document survives a delete aimed at collection `c` when the delete
targets another collection or its filter does not match. -/
def opKeeps (op : DelOp) (c : String) (d : Doc) : Bool :=
  !(decide (op.target = c) && opMatches op d)

/-- `modifyColl` transforms exactly the named collection's contents. -/
theorem lookup_modifyColl (c c' : String) (f : List Doc → List Doc) :
    ∀ (db : DB),
      List.lookup c' (MDB.modifyColl db c f) =
        if c' = c then Option.map f (List.lookup c' db)
        else List.lookup c' db
  | [] => by by_cases h : c' = c <;> simp [MDB.modifyColl, h]
  | (n, ds) :: rest => by
      have ih := lookup_modifyColl c c' f rest
      simp only [MDB.modifyColl] at ih ⊢
      simp only [List.map_cons]
      by_cases hn : n = c
      · rw [if_pos hn]
        by_cases hc : c' = n
        · have hb : (c' == n) = true := beq_iff_eq.mpr hc
          rw [if_pos (hc.trans hn)]
          simp [List.lookup, hb]
        · have hb : (c' == n) = false := beq_eq_false_iff_ne.mpr hc
          have hcc : ¬c' = c := fun he => hc (he.trans hn.symm)
          rw [if_neg hcc] at ih ⊢
          simp only [List.lookup, hb]
          exact ih
      · rw [if_neg hn]
        by_cases hc : c' = n
        · have hb : (c' == n) = true := beq_iff_eq.mpr hc
          have hcc : ¬c' = c := fun he => hn ((hc.symm.trans he) ▸ rfl)
          rw [if_neg hcc]
          simp [List.lookup, hb]
        · have hb : (c' == n) = false := beq_eq_false_iff_ne.mpr hc
          by_cases hcc : c' = c
          · rw [if_pos hcc] at ih ⊢
            simp only [List.lookup, hb]
            exact ih
          · rw [if_neg hcc] at ih ⊢
            simp only [List.lookup, hb]
            exact ih

/-- One delete filters exactly its target collection. -/
theorem getColl_applyOp (db : DB) (op : DelOp) (c : String) :
    getColl (applyOp db op) c =
      if op.target = c then
        (getColl db c).filter (fun d => !opMatches op d)
      else getColl db c := by
  unfold getColl applyOp
  rw [lookup_modifyColl]
  by_cases h : c = op.target
  · rw [if_pos h, if_pos h.symm]
    cases List.lookup c db <;> simp
  · rw [if_neg h, if_neg (fun he => h he.symm)]

/-- Survival across a sequence of deletes: a document is in the final
collection exactly when it was there initially and no delete of the
sequence removed it. -/
theorem mem_getColl_foldl {d : Doc} {c : String} :
    ∀ {ops : List DelOp} {db : DB},
      (d ∈ getColl (ops.foldl applyOp db) c ↔
        d ∈ getColl db c ∧ ∀ op ∈ ops, opKeeps op c d = true) := by
  intro ops
  induction ops with
  | nil => intro db; simp
  | cons op ops ih =>
    intro db
    rw [List.foldl_cons, ih, getColl_applyOp]
    by_cases ht : op.target = c
    · rw [if_pos ht]
      constructor
      · rintro ⟨hm, h3⟩
        rw [List.mem_filter] at hm
        refine ⟨hm.1, ?_⟩
        intro op' hop'
        rcases List.mem_cons.mp hop' with rfl | hop'
        · simp only [opKeeps, ht, decide_eq_true_eq]
          simpa using hm.2
        · exact h3 op' hop'
      · rintro ⟨h1, h2⟩
        have hk := h2 op (by simp)
        simp only [opKeeps, ht] at hk
        refine ⟨List.mem_filter.mpr ⟨h1, by simpa using hk⟩,
          fun op' h' => h2 op' (by simp [h'])⟩
    · rw [if_neg ht]
      constructor
      · rintro ⟨h1, h3⟩
        refine ⟨h1, fun op' h' => ?_⟩
        rcases List.mem_cons.mp h' with rfl | h'
        · simp [opKeeps, ht]
        · exact h3 op' h'
      · rintro ⟨h1, h2⟩
        exact ⟨h1, fun op' h' => h2 op' (by simp [h'])⟩

/-- Survival across a sequence of blocks of deletes. -/
theorem mem_getColl_foldBlocks {d : Doc} {c : String} :
    ∀ {blocks : List (List DelOp)} {db : DB},
      d ∈ getColl (blocks.foldl (fun s b => b.foldl applyOp s) db) c ↔
        d ∈ getColl db c ∧
          ∀ b ∈ blocks, ∀ op ∈ b, opKeeps op c d = true := by
  intro blocks
  induction blocks with
  | nil => intro db; simp
  | cons b bs ih =>
    intro db
    rw [List.foldl_cons, ih, mem_getColl_foldl]
    constructor
    · rintro ⟨⟨h1, h2⟩, h3⟩
      refine ⟨h1, fun b' hb' => ?_⟩
      rcases List.mem_cons.mp hb' with rfl | hb'
      · exact h2
      · exact h3 b' hb'
    · rintro ⟨h1, h2⟩
      exact ⟨⟨h1, h2 b (by simp)⟩, fun b' hb' => h2 b' (by simp [hb'])⟩

/-- The per-item loop applies exactly its recorded blocks in order. -/
theorem runItems_eq_foldl :
    ∀ (items : List Doc) (db : DB),
      (runItems db items).1 =
        (runItems db items).2.foldl (fun s b => b.foldl applyOp s) db
  | [], _ => rfl
  | it :: rest, db => by
      simp only [runItems]
      rw [runItems_eq_foldl rest ((itemBlock db it).foldl applyOp db),
        List.foldl_cons]

/-- Survival across the per-item loop. -/
theorem mem_getColl_runItems {d : Doc} {c : String} {items : List Doc}
    {db : DB} :
    d ∈ getColl (runItems db items).1 c ↔
      d ∈ getColl db c ∧
        ∀ b ∈ (runItems db items).2, ∀ op ∈ b, opKeeps op c d = true := by
  rw [runItems_eq_foldl, mem_getColl_foldBlocks]

/-- Every recorded block belongs to a selected item and deletes, in order,
payments, the item's rentals, the item's inventory row, the item's film. -/
theorem runItems_blocks_shape :
    ∀ (items : List Doc) (db : DB), ∀ b ∈ (runItems db items).2,
      ∃ it ∈ items, ∃ pays : List Value,
        b = pays.map (fun v => DelOp.delEq "payment" "rental_id" v) ++
          [ DelOp.delEq "rental" "inventory_id" (dget it "inventory_id")
          , DelOp.delEq "inventory" "inventory_id" (dget it "inventory_id")
          , DelOp.delEq "film" "film_id" (dget it "film_id") ]
  | [], db => by intro b hb; simp [runItems] at hb
  | it :: rest, db => by
      intro b hb
      simp only [runItems] at hb
      rcases List.mem_cons.mp hb with rfl | hb'
      · refine ⟨it, by simp, ?_⟩
        refine ⟨(evalPipeline db "rental"
          [Stage.matchEqS ["inventory_id"] (dget it "inventory_id")]).map
            (fun r => dget r "rental_id"), ?_⟩
        simp [itemBlock, List.map_map]
      · obtain ⟨it', hit', rest'⟩ := runItems_blocks_shape rest _ b hb'
        exact ⟨it', by simp [hit'], rest'⟩

/-- For every selected item, some recorded block holds its rental and
inventory deletes. -/
theorem runItems_item_ops :
    ∀ (items : List Doc) (db : DB), ∀ it ∈ items,
      ∃ b ∈ (runItems db items).2,
        DelOp.delEq "rental" "inventory_id" (dget it "inventory_id") ∈ b ∧
        DelOp.delEq "inventory" "inventory_id" (dget it "inventory_id") ∈ b
  | [], _ => by intro it hit; cases hit
  | it0 :: rest, db => by
      intro it hit
      rcases List.mem_cons.mp hit with rfl | hit'
      · refine ⟨itemBlock db it, by simp [runItems], by simp [itemBlock],
          by simp [itemBlock]⟩
      · obtain ⟨b, hb, h1, h2⟩ :=
          runItems_item_ops rest ((itemBlock db it0).foldl applyOp db) it hit'
        exact ⟨b, by simp only [runItems]; exact List.mem_cons_of_mem _ hb,
          h1, h2⟩

/-! ## Characterization of the `short_films` selection -/

/-- Under well-formed rows (the id fields are present), the `$lookup` of
`short_films` attaches a film to an inventory item exactly when their
`film_id`s agree. -/
theorem lookup_match_iff (i f : Doc)
    (hi : (dlookup i "film_id").isSome)
    (hf : (dlookup f "film_id").isSome) :
    ((normVals (resolveAll (Value.vDoc f) ["film_id"])).any
        (fun fv =>
          decide (fv ∈ normVals (resolveAll (Value.vDoc i) ["film_id"])))
      = true)
      ↔ dget f "film_id" = dget i "film_id" := by
  obtain ⟨vi, hvi⟩ := Option.isSome_iff_exists.mp hi
  obtain ⟨vf, hvf⟩ := Option.isSome_iff_exists.mp hf
  rw [resolveAll_single, resolveAll_single, hvi, hvf]
  simp [normVals, dget, hvi, hvf]

/-- The films the `short_films` `$lookup` attaches to an inventory item. -/
def attachFilms (db : DB) (i : Doc) : Doc :=
  dset i "film" (Value.vArr
    (((getColl db "film").filter
        (fun f => (normVals (resolveAll (Value.vDoc f) ["film_id"])).any
          (fun fv =>
            decide
              (fv ∈ normVals (resolveAll (Value.vDoc i) ["film_id"]))))).map
      Value.vDoc))

/-- The `short_films` pipeline is its lookup followed by its match. -/
theorem short_films_eval (db : DB) :
    evalPipeline db "inventory" short_films =
      evalMatchLt ["film", "length"] 60
        (evalLookup db "film" ["film_id"] ["film_id"] "film"
          (getColl db "inventory")) := rfl

/-- The `short_films` lookup attaches films to every inventory item. -/
theorem evalLookup_film (db : DB) (docs : List Doc) :
    evalLookup db "film" ["film_id"] ["film_id"] "film" docs
      = docs.map (attachFilms db) := rfl

/-- Soundness of the selection: every selected item is an inventory row
(with `film` attached) whose film exists and is short. -/
theorem sel_sound (db : DB)
    (Hinv : ∀ i ∈ getColl db "inventory", (dlookup i "film_id").isSome)
    (Hfilm : ∀ f ∈ getColl db "film", (dlookup f "film_id").isSome) :
    ∀ item ∈ evalPipeline db "inventory" short_films,
      ∃ i ∈ getColl db "inventory",
        dget item "inventory_id" = dget i "inventory_id" ∧
        dget item "film_id" = dget i "film_id" ∧
        ∃ f ∈ getColl db "film", dget f "film_id" = dget i "film_id" ∧
          ∃ n : Int, dlookup f "length" = some (Value.vInt n) ∧ n < 60 := by
  intro item hitem
  rw [short_films_eval, evalLookup_film] at hitem
  unfold evalMatchLt at hitem
  obtain ⟨hmem, hpred⟩ := List.mem_filter.mp hitem
  obtain ⟨i, hi, rfl⟩ := List.mem_map.mp hmem
  refine ⟨i, hi, ?_, ?_, ?_⟩
  · exact dget_dset_ne _ _ _ _ (by decide)
  · exact dget_dset_ne _ _ _ _ (by decide)
  · rw [attachFilms, resolve_attached] at hpred
    obtain ⟨v, hv, hshort⟩ := List.any_eq_true.mp hpred
    obtain ⟨f, hfmem, hvf⟩ := List.mem_flatMap.mp hv
    obtain ⟨hf, hfmatch⟩ := List.mem_filter.mp hfmem
    refine ⟨f, hf,
      (lookup_match_iff i f (Hinv i hi) (Hfilm f hf)).mp hfmatch, ?_⟩
    rcases hlen : dlookup f "length" with _ | w
    · rw [hlen] at hvf; cases hvf
    · rw [hlen] at hvf
      simp only [List.mem_singleton] at hvf
      subst hvf
      rcases v with _ | b | n | s | xs | fs <;> simp at hshort
      exact ⟨_, rfl, hshort⟩

/-- Completeness of the selection: every inventory row whose film is short
is selected (as itself with `film` attached, so with the same ids). -/
theorem sel_complete (db : DB)
    (Hinv : ∀ i ∈ getColl db "inventory", (dlookup i "film_id").isSome)
    (Hfilm : ∀ f ∈ getColl db "film", (dlookup f "film_id").isSome) :
    ∀ i ∈ getColl db "inventory",
      (∃ f ∈ getColl db "film", dget f "film_id" = dget i "film_id" ∧
        ∃ n : Int, dlookup f "length" = some (Value.vInt n) ∧ n < 60) →
      ∃ item ∈ evalPipeline db "inventory" short_films,
        dget item "inventory_id" = dget i "inventory_id" := by
  intro i hi hshort
  obtain ⟨f, hf, hid, n, hlen, hn⟩ := hshort
  refine ⟨attachFilms db i, ?_, dget_dset_ne _ _ _ _ (by decide)⟩
  rw [short_films_eval, evalLookup_film]
  unfold evalMatchLt
  apply List.mem_filter.mpr
  refine ⟨List.mem_map_of_mem _ hi, ?_⟩
  rw [attachFilms, resolve_attached]
  apply List.any_eq_true.mpr
  refine ⟨Value.vInt n, ?_, by simp [hn]⟩
  apply List.mem_flatMap.mpr
  refine ⟨f, ?_, by simp [hlen]⟩
  exact List.mem_filter.mpr
    ⟨hf, (lookup_match_iff i f (Hinv i hi) (Hfilm f hf)).mpr hid⟩

/-- A rental of the current state whose `inventory_id` matches the item's is
picked up by the item's rents aggregation, so its payments delete is in the
item's block. -/
theorem rents_mem (db' : DB) (it r : Doc)
    (hr : r ∈ getColl db' "rental")
    (hrp : (dlookup r "inventory_id").isSome)
    (heq : dget r "inventory_id" = dget it "inventory_id") :
    DelOp.delEq "payment" "rental_id" (dget r "rental_id")
      ∈ itemBlock db' it := by
  unfold itemBlock
  apply List.mem_append.mpr
  left
  apply List.mem_map_of_mem
  show r ∈ evalMatchEq ["inventory_id"] (dget it "inventory_id")
    (getColl db' "rental")
  unfold evalMatchEq
  apply List.mem_filter.mpr
  refine ⟨hr, ?_⟩
  obtain ⟨vr, hvr⟩ := Option.isSome_iff_exists.mp hrp
  rw [resolveAll_single, hvr]
  have : vr = dget r "inventory_id" := by simp [dget, hvr]
  simp [normVals, this, heq]

/-! ## No orphans after the Deleting phase -/

/-- If a block removed an inventory row, the row carried the block's
inventory id (the only inventory-targeting delete of a block). -/
theorem block_removed_inventory (db : DB) (it i : Doc)
    (hi : i ∈ getColl db "inventory")
    (hni : i ∉ getColl ((itemBlock db it).foldl applyOp db) "inventory") :
    dget i "inventory_id" = dget it "inventory_id" := by
  have hnall : ¬ ∀ op ∈ itemBlock db it, opKeeps op "inventory" i = true := by
    intro hall
    exact hni (mem_getColl_foldl.mpr ⟨hi, hall⟩)
  push_neg at hnall
  obtain ⟨op, hop, hnk⟩ := hnall
  rcases List.mem_append.mp hop with hp | hp
  · obtain ⟨r0, _, rfl⟩ := List.mem_map.mp hp
    exact absurd (by simp [opKeeps, DelOp.target]) hnk
  · simp only [List.mem_cons, List.not_mem_nil, or_false] at hp
    rcases hp with rfl | rfl | rfl
    · exact absurd (by simp [opKeeps, DelOp.target]) hnk
    · simp only [opKeeps, DelOp.target, opMatches] at hnk
      simpa using hnk
    · exact absurd (by simp [opKeeps, DelOp.target]) hnk

/-- If a block removed a rental, the rental carried the block's inventory
id (the only rental-targeting delete of a block). -/
theorem block_removed_rental (db : DB) (it r : Doc)
    (hr : r ∈ getColl db "rental")
    (hnr : r ∉ getColl ((itemBlock db it).foldl applyOp db) "rental") :
    dget r "inventory_id" = dget it "inventory_id" := by
  have hnall : ¬ ∀ op ∈ itemBlock db it, opKeeps op "rental" r = true := by
    intro hall
    exact hnr (mem_getColl_foldl.mpr ⟨hr, hall⟩)
  push_neg at hnall
  obtain ⟨op, hop, hnk⟩ := hnall
  rcases List.mem_append.mp hop with hp | hp
  · obtain ⟨r0, _, rfl⟩ := List.mem_map.mp hp
    exact absurd (by simp [opKeeps, DelOp.target]) hnk
  · simp only [List.mem_cons, List.not_mem_nil, or_false] at hp
    rcases hp with rfl | rfl | rfl
    · simp only [opKeeps, DelOp.target, opMatches] at hnk
      simpa using hnk
    · exact absurd (by simp [opKeeps, DelOp.target]) hnk
    · exact absurd (by simp [opKeeps, DelOp.target]) hnk

/-- Through the per-item loop, no surviving rental references a deleted
inventory row: a block deletes its rentals before (in fact, by the same key
as) its inventory row. -/
theorem cascade_rental_aux :
    ∀ (items : List Doc) (db : DB),
      ∀ r ∈ getColl (runItems db items).1 "rental",
        ∀ i ∈ getColl db "inventory",
          i ∉ getColl (runItems db items).1 "inventory" →
            dget r "inventory_id" ≠ dget i "inventory_id"
  | [], db => by
      intro r _ i hi hni
      exact absurd hi hni
  | it :: rest, db => by
      intro r hr i hi hni heq
      have hrun : (runItems db (it :: rest)).1 =
          (runItems ((itemBlock db it).foldl applyOp db) rest).1 := rfl
      rw [hrun] at hr hni
      by_cases hi1 : i ∈ getColl ((itemBlock db it).foldl applyOp db)
          "inventory"
      · exact cascade_rental_aux rest _ r hr i hi1 hni heq
      · have hii := block_removed_inventory db it i hi hi1
        have hr1 : r ∈ getColl ((itemBlock db it).foldl applyOp db)
            "rental" := (mem_getColl_runItems.mp hr).1
        have hkr := (mem_getColl_foldl.mp hr1).2
          (DelOp.delEq "rental" "inventory_id" (dget it "inventory_id"))
          (by simp [itemBlock])
        simp [opKeeps, DelOp.target, opMatches] at hkr
        exact hkr (heq.trans hii)

/-- Through the per-item loop, no surviving payment references a deleted
rental: a deleted rental was in its block's rents aggregation, whose payment
deletes ran first. -/
theorem cascade_payment_aux :
    ∀ (items : List Doc) (db : DB),
      (∀ r ∈ getColl db "rental", (dlookup r "inventory_id").isSome) →
      ∀ p ∈ getColl (runItems db items).1 "payment",
        ∀ r ∈ getColl db "rental",
          r ∉ getColl (runItems db items).1 "rental" →
            dget p "rental_id" ≠ dget r "rental_id"
  | [], db => by
      intro _ p _ r hr hnr
      exact absurd hr hnr
  | it :: rest, db => by
      intro Hr p hp r hr hnr heq
      have hrun : (runItems db (it :: rest)).1 =
          (runItems ((itemBlock db it).foldl applyOp db) rest).1 := rfl
      rw [hrun] at hp hnr
      have Hr1 : ∀ r' ∈ getColl ((itemBlock db it).foldl applyOp db)
          "rental", (dlookup r' "inventory_id").isSome := by
        intro r' hr'
        exact Hr r' (mem_getColl_foldl.mp hr').1
      by_cases hr1 : r ∈ getColl ((itemBlock db it).foldl applyOp db)
          "rental"
      · exact cascade_payment_aux rest _ Hr1 p hp r hr1 hnr heq
      · have hri := block_removed_rental db it r hr hr1
        have hpop := rents_mem db it r hr (Hr r hr) hri
        have hp1 : p ∈ getColl ((itemBlock db it).foldl applyOp db)
            "payment" := (mem_getColl_runItems.mp hp).1
        have hkp := (mem_getColl_foldl.mp hp1).2 _ hpop
        simp [opKeeps, DelOp.target, opMatches] at hkp
        exact hkp heq

/-- C6: the Deleting phase's cascading delete is complete and ordered.  For
well-formed migrated rows (id fields present), (1) every recorded block of
deletes belongs to a selected item and runs payments, then the item's
rentals, then the item's inventory row, then its film, in that order; and
after the phase — the per-item loop followed by the final direct sweep on
`film` — (2) no surviving inventory row references a deleted film, (3) no
surviving rental references a deleted inventory row, and (4) no surviving
payment references a deleted rental: zero orphans remain. -/
theorem cascade_delete_complete_ordered (db : DB)
    (Hinv : ∀ i ∈ getColl db "inventory",
      (dlookup i "inventory_id").isSome ∧ (dlookup i "film_id").isSome)
    (Hfilm : ∀ f ∈ getColl db "film", (dlookup f "film_id").isSome)
    (Hrent : ∀ r ∈ getColl db "rental",
      (dlookup r "inventory_id").isSome) :
    (∀ b ∈ (delete_short_films db).2,
      ∃ it ∈ evalPipeline db "inventory" short_films, ∃ pays : List Value,
        b = pays.map (fun v => DelOp.delEq "payment" "rental_id" v) ++
          [ DelOp.delEq "rental" "inventory_id" (dget it "inventory_id")
          , DelOp.delEq "inventory" "inventory_id" (dget it "inventory_id")
          , DelOp.delEq "film" "film_id" (dget it "film_id") ]) ∧
    (∀ i ∈ getColl (delete_short_films db).1 "inventory",
      ∀ f ∈ getColl db "film",
        f ∉ getColl (delete_short_films db).1 "film" →
          dget i "film_id" ≠ dget f "film_id") ∧
    (∀ r ∈ getColl (delete_short_films db).1 "rental",
      ∀ i ∈ getColl db "inventory",
        i ∉ getColl (delete_short_films db).1 "inventory" →
          dget r "inventory_id" ≠ dget i "inventory_id") ∧
    (∀ p ∈ getColl (delete_short_films db).1 "payment",
      ∀ r ∈ getColl db "rental",
        r ∉ getColl (delete_short_films db).1 "rental" →
          dget p "rental_id" ≠ dget r "rental_id") := by
  have Hinv2 : ∀ i ∈ getColl db "inventory", (dlookup i "film_id").isSome :=
    fun i h => (Hinv i h).2
  have hfst : (delete_short_films db).1 =
      applyOp (runItems db (evalPipeline db "inventory" short_films)).1
        sweepOp := rfl
  have hsnd : (delete_short_films db).2 =
      (runItems db (evalPipeline db "inventory" short_films)).2 := rfl
  have hcinv : getColl (delete_short_films db).1 "inventory" =
      getColl (runItems db (evalPipeline db "inventory" short_films)).1
        "inventory" := by
    rw [hfst, getColl_applyOp, if_neg (by decide)]
  have hcrent : getColl (delete_short_films db).1 "rental" =
      getColl (runItems db (evalPipeline db "inventory" short_films)).1
        "rental" := by
    rw [hfst, getColl_applyOp, if_neg (by decide)]
  have hcpay : getColl (delete_short_films db).1 "payment" =
      getColl (runItems db (evalPipeline db "inventory" short_films)).1
        "payment" := by
    rw [hfst, getColl_applyOp, if_neg (by decide)]
  have hcfilm : getColl (delete_short_films db).1 "film" =
      (getColl (runItems db (evalPipeline db "inventory" short_films)).1
        "film").filter (fun d => !opMatches sweepOp d) := by
    rw [hfst, getColl_applyOp,
      if_pos (show DelOp.target sweepOp = "film" from rfl)]
  refine ⟨?_, ?_, ?_, ?_⟩
  · rw [hsnd]
    exact runItems_blocks_shape _ db
  · intro i hi f hf hnf heq
    rw [hcinv] at hi
    rw [hcfilm] at hnf
    obtain ⟨hi0, hisurv⟩ := mem_getColl_runItems.mp hi
    by_cases hfF : f ∈ getColl
        (runItems db (evalPipeline db "inventory" short_films)).1 "film"
    · have hm : opMatches sweepOp f = true := by
        by_contra hm
        exact hnf (List.mem_filter.mpr ⟨hfF, by simp [hm]⟩)
      have hex : ∃ n : Int, dget f "length" = Value.vInt n ∧ n < 60 := by
        simp only [opMatches, sweepOp] at hm
        rcases hv : dget f "length" with _ | b | n | s | xs | fs <;>
          rw [hv] at hm <;> simp at hm
        exact ⟨n, rfl, hm⟩
      obtain ⟨n, hlen, hn⟩ := hex
      have hlen' : dlookup f "length" = some (Value.vInt n) :=
        dlookup_of_dget _ _ _ hlen (by simp)
      obtain ⟨item, hitem, hinv_eq⟩ :=
        sel_complete db Hinv2 Hfilm i hi0 ⟨f, hf, heq.symm, n, hlen', hn⟩
      obtain ⟨b, hb, _, hiop⟩ := runItems_item_ops _ db item hitem
      have hk := hisurv b hb _ hiop
      simp [opKeeps, DelOp.target, opMatches] at hk
      exact hk hinv_eq.symm
    · have hnall : ¬ ∀ b ∈
          (runItems db (evalPipeline db "inventory" short_films)).2,
          ∀ op ∈ b, opKeeps op "film" f = true := by
        intro hall
        exact hfF (mem_getColl_runItems.mpr ⟨hf, hall⟩)
      push_neg at hnall
      obtain ⟨b, hb, op, hop, hnk⟩ := hnall
      obtain ⟨it, hit, pays, rfl⟩ := runItems_blocks_shape _ db b hb
      have hfid : dget f "film_id" = dget it "film_id" := by
        rcases List.mem_append.mp hop with hp | hp
        · obtain ⟨v, _, rfl⟩ := List.mem_map.mp hp
          exact absurd (by simp [opKeeps, DelOp.target]) hnk
        · simp only [List.mem_cons, List.not_mem_nil, or_false] at hp
          rcases hp with rfl | rfl | rfl
          · exact absurd (by simp [opKeeps, DelOp.target]) hnk
          · exact absurd (by simp [opKeeps, DelOp.target]) hnk
          · simp [opKeeps, DelOp.target, opMatches] at hnk
            exact hnk
      obtain ⟨i0, hi0', hInvEq, hFidEq, g, hg, hgid, m, hglen, hm⟩ :=
        sel_sound db Hinv2 Hfilm it hit
      have hgi : dget g "film_id" = dget i "film_id" :=
        hgid.trans (hFidEq.symm.trans (hfid.symm.trans heq.symm))
      obtain ⟨item, hitem, hinv_eq⟩ :=
        sel_complete db Hinv2 Hfilm i hi0 ⟨g, hg, hgi, m, hglen, hm⟩
      obtain ⟨b', hb', _, hiop⟩ := runItems_item_ops _ db item hitem
      have hk := hisurv b' hb' _ hiop
      simp [opKeeps, DelOp.target, opMatches] at hk
      exact hk hinv_eq.symm
  · intro r hr i hi hni
    rw [hcrent] at hr
    rw [hcinv] at hni
    exact cascade_rental_aux _ db r hr i hi hni
  · intro p hp r hr hnr
    rw [hcpay] at hp
    rw [hcrent] at hnr
    exact cascade_payment_aux _ db Hrent p hp r hr hnr

/-- A small concrete store for exercising the delete phase: film 1 is short
(length 50) with an inventory row, a rental and a payment; film 2 is long
(length 90) with its own dependents. -/
def sampleDvdDb : DB :=
  [ ("film",
      [ [("film_id", Value.vInt 1), ("length", Value.vInt 50)]
      , [("film_id", Value.vInt 2), ("length", Value.vInt 90)] ])
  , ("inventory",
      [ [("inventory_id", Value.vInt 10), ("film_id", Value.vInt 1)]
      , [("inventory_id", Value.vInt 11), ("film_id", Value.vInt 2)] ])
  , ("rental",
      [ [("rental_id", Value.vInt 100), ("inventory_id", Value.vInt 10)]
      , [("rental_id", Value.vInt 101), ("inventory_id", Value.vInt 11)] ])
  , ("payment",
      [ [("payment_id", Value.vInt 1000), ("rental_id", Value.vInt 100)]
      , [("payment_id", Value.vInt 1001), ("rental_id", Value.vInt 101)] ]) ]

/-- C6 (witness): the well-formedness hypotheses hold on the concrete store
and the cascade theorem applies to it. -/
theorem cascade_delete_complete_ordered_witness :
    ((∀ i ∈ getColl sampleDvdDb "inventory",
        (dlookup i "inventory_id").isSome ∧ (dlookup i "film_id").isSome) ∧
      (∀ f ∈ getColl sampleDvdDb "film", (dlookup f "film_id").isSome) ∧
      (∀ r ∈ getColl sampleDvdDb "rental",
        (dlookup r "inventory_id").isSome)) ∧
    ((∀ b ∈ (delete_short_films sampleDvdDb).2,
      ∃ it ∈ evalPipeline sampleDvdDb "inventory" short_films,
        ∃ pays : List Value,
        b = pays.map (fun v => DelOp.delEq "payment" "rental_id" v) ++
          [ DelOp.delEq "rental" "inventory_id" (dget it "inventory_id")
          , DelOp.delEq "inventory" "inventory_id" (dget it "inventory_id")
          , DelOp.delEq "film" "film_id" (dget it "film_id") ]) ∧
    (∀ i ∈ getColl (delete_short_films sampleDvdDb).1 "inventory",
      ∀ f ∈ getColl sampleDvdDb "film",
        f ∉ getColl (delete_short_films sampleDvdDb).1 "film" →
          dget i "film_id" ≠ dget f "film_id") ∧
    (∀ r ∈ getColl (delete_short_films sampleDvdDb).1 "rental",
      ∀ i ∈ getColl sampleDvdDb "inventory",
        i ∉ getColl (delete_short_films sampleDvdDb).1 "inventory" →
          dget r "inventory_id" ≠ dget i "inventory_id") ∧
    (∀ p ∈ getColl (delete_short_films sampleDvdDb).1 "payment",
      ∀ r ∈ getColl sampleDvdDb "rental",
        r ∉ getColl (delete_short_films sampleDvdDb).1 "rental" →
          dget p "rental_id" ≠ dget r "rental_id")) :=
  ⟨⟨by decide, by decide, by decide⟩,
    cascade_delete_complete_ordered sampleDvdDb
      (by decide) (by decide) (by decide)⟩
